import Mathlib

/-!
Shallow embedding of `src/main.py` (tursom/callback-printer), a FastAPI
debug server with a logging middleware (`log_request_info`) and a
catch-all route handler (`catch_all_endpoint`).

Machine-level conventions of the embedding:
* bytes are `Nat` (each < 256 where it matters),
* Python `str` values are `List Char` (Lean `Char` = unicode scalar,
  matching CPython's `str` code points after `errors='ignore'` decoding),
* timestamps are opaque parameters (`datetime.now()` results are inputs
  of the embedded functions),
* Python `dict` construction is modelled operationally (insertion order,
  overwrite-in-place semantics).
-/

namespace CallbackPrinter

/-! ## JSON values

Model of the values produced by `json.loads` in `log_request_info`:
`None`, `bool`, `int`, `str`, `list`, `dict`.  JSON numbers are modelled
as exact integers (the float branch of the scanner is out of scope of the
embedding and the middleware never prints floats of its own). -/

inductive Json where
  | null : Json
  | bool (b : Bool) : Json
  | int (n : Int) : Json
  | str (s : List Char) : Json
  | arr (items : List Json) : Json
  | obj (members : List (List Char × Json)) : Json
deriving Repr

/-! ## Python dict construction

`dict(pairs)` on a sequence of key/value tuples (CPython
`PyDict_MergeFromSeq2`): each pair is assigned in order; assigning an
existing key overwrites its value in place (the key keeps its original
position), a new key is appended.  This is what `json.loads` does with
the member list of a JSON object, and what `dict(request.query_params)`
amounts to. -/

/-- `d[k] = v` on an insertion-ordered dict: an existing key keeps its
position and gets the new value, a new key is appended. -/
def pyDictSet {κ α : Type} [DecidableEq κ] (d : List (κ × α)) (k : κ) (v : α) :
    List (κ × α) :=
  if d.any (fun p => p.1 = k) then
    d.map (fun p => if p.1 = k then (p.1, v) else p)
  else
    d ++ [(k, v)]

def pyDictFromPairs {κ α : Type} [DecidableEq κ] (pairs : List (κ × α)) :
    List (κ × α) :=
  pairs.foldl (fun d p => pyDictSet d p.1 p.2) []

/-- First value stored under key `k` in the raw association list: Starlette
`Headers.__getitem__` scans `self._list` front to back and returns the
first match. -/
def firstLookup {κ α : Type} [DecidableEq κ] (l : List (κ × α)) (k : κ) :
    Option α :=
  (l.find? (fun p => p.1 = k)).map (fun p => p.2)

/-- `dict(request.headers)`: CPython `PyDict_Merge` over a non-dict
Mapping iterates `m.keys()` (Starlette `Headers.keys()` lists every raw
header name, duplicates included) and performs `d[k] = m[k]`, where
`m[k]` is `Headers.__getitem__ k` = the first value stored under `k`. -/
def dictOfHeaders (l : List (String × String)) : List (String × String) :=
  l.foldl
    (fun d p =>
      match firstLookup l p.1 with
      | some v => pyDictSet d p.1 v
      | none => d)
    []

/-! ## UTF-8 decoding, `bytes.decode('utf-8', errors=...)`

CPython's UTF-8 decoder: accepted sequences are the well-formed ones
(no overlong forms, no surrogates, nothing above U+10FFFF).  On an
invalid sequence the error handler receives the maximal valid subpart
(lead byte plus the continuation bytes that fit so far) and decoding
resumes at the first offending byte; `errors='ignore'` drops that
subpart, `errors='strict'` raises `UnicodeDecodeError`. -/

def isCont (c : Nat) : Bool := 0x80 ≤ c && c ≤ 0xBF

/-- Lower bound of the first continuation byte for lead byte `b`
(0xE0 and 0xF0 exclude overlong forms). -/
def cont1Lo (b : Nat) : Nat :=
  if b = 0xE0 then 0xA0 else if b = 0xF0 then 0x90 else 0x80

/-- Upper bound of the first continuation byte for lead byte `b`
(0xED excludes surrogates, 0xF4 caps at U+10FFFF). -/
def cont1Hi (b : Nat) : Nat :=
  if b = 0xED then 0x9F else if b = 0xF4 then 0x8F else 0xBF

def validCont1 (b c : Nat) : Bool := cont1Lo b ≤ c && c ≤ cont1Hi b

def char2 (b c1 : Nat) : Char :=
  Char.ofNat ((b - 0xC0) * 0x40 + (c1 - 0x80))

def char3 (b c1 c2 : Nat) : Char :=
  Char.ofNat ((b - 0xE0) * 0x1000 + (c1 - 0x80) * 0x40 + (c2 - 0x80))

def char4 (b c1 c2 c3 : Nat) : Char :=
  Char.ofNat
    ((b - 0xF0) * 0x40000 + (c1 - 0x80) * 0x1000 + (c2 - 0x80) * 0x40 +
      (c3 - 0x80))

/-- One decoding step: lead byte `b`, remaining input `rest`.
`.ok (c, rem)` = one scalar decoded, `.error rem` = invalid sequence,
`rem` is where decoding resumes after the skipped subpart. -/
def utf8Step (b : Nat) (rest : List Nat) : Except (List Nat) (Char × List Nat) :=
  if b < 0x80 then .ok (Char.ofNat b, rest)
  else if 0xC2 ≤ b && b ≤ 0xDF then
    match rest with
    | c1 :: r2 => if isCont c1 then .ok (char2 b c1, r2) else .error rest
    | [] => .error []
  else if 0xE0 ≤ b && b ≤ 0xEF then
    match rest with
    | c1 :: r2 =>
      if validCont1 b c1 then
        match r2 with
        | c2 :: r3 => if isCont c2 then .ok (char3 b c1 c2, r3) else .error r2
        | [] => .error []
      else .error rest
    | [] => .error []
  else if 0xF0 ≤ b && b ≤ 0xF4 then
    match rest with
    | c1 :: r2 =>
      if validCont1 b c1 then
        match r2 with
        | c2 :: r3 =>
          if isCont c2 then
            match r3 with
            | c3 :: r4 => if isCont c3 then .ok (char4 b c1 c2 c3, r4) else .error r3
            | [] => .error []
          else .error r2
        | [] => .error []
      else .error rest
    | [] => .error []
  else .error rest

theorem utf8Step_ok_length {b : Nat} {rest rem : List Nat} {c : Char}
    (h : utf8Step b rest = .ok (c, rem)) : rem.length ≤ rest.length := by
  unfold utf8Step at h
  repeat' split at h
  all_goals simp_all
  all_goals omega

theorem utf8Step_error_length {b : Nat} {rest rem : List Nat}
    (h : utf8Step b rest = .error rem) : rem.length ≤ rest.length := by
  unfold utf8Step at h
  repeat' split at h
  all_goals simp_all
  all_goals omega

/-- `bytes.decode('utf-8', errors='ignore')` when `ign = true`,
`errors='strict'` (raising, i.e. `none`) when `ign = false`. -/
def utf8_decode (ign : Bool) : List Nat → Option (List Char)
  | [] => some []
  | b :: rest =>
    match h : utf8Step b rest with
    | .ok (c, rem) => (utf8_decode ign rem).map (fun s => c :: s)
    | .error rem => if ign then utf8_decode ign rem else none
termination_by l => l.length
decreasing_by
  · have := utf8Step_ok_length h
    simp
    omega
  · have := utf8Step_error_length h
    simp
    omega

/-- With `errors='ignore'` the decoder never fails: every error branch
skips and continues. -/
theorem utf8_decode_ignore_isSome (l : List Nat) :
    (utf8_decode true l).isSome := by
  suffices h : ∀ n (l : List Nat), l.length ≤ n → (utf8_decode true l).isSome from
    h l.length l le_rfl
  intro n
  induction n with
  | zero =>
    intro l hl
    have : l = [] := List.eq_nil_of_length_eq_zero (Nat.le_zero.mp hl)
    subst this
    rw [utf8_decode]
    rfl
  | succ n ih =>
    intro l hl
    match l with
    | [] => rw [utf8_decode]; rfl
    | b :: rest =>
      rw [utf8_decode]
      split
      · next c rem heq =>
        have hle := utf8Step_ok_length heq
        have hr := ih rem (by simp at hl; omega)
        obtain ⟨s, hs⟩ := Option.isSome_iff_exists.mp hr
        rw [hs]
        rfl
      · next rem heq =>
        have hle := utf8Step_error_length heq
        rw [if_pos rfl]
        exact ih rem (by simp at hl; omega)

/-- The result of `body.decode('utf-8', errors='ignore')`; total by
`utf8_decode_ignore_isSome`. -/
def decodeIgnore (body : List Nat) : List Char :=
  (utf8_decode true body).getD []

/-- A byte in 0x80..0xBF is an invalid start byte: the decoder emits
nothing for it and (under `ignore`) resumes at the next byte. -/
theorem utf8_decode_all_cont {l : List Nat}
    (h : ∀ b ∈ l, 0x80 ≤ b ∧ b ≤ 0xBF) : utf8_decode true l = some [] := by
  induction l with
  | nil => rw [utf8_decode]
  | cons b rest ih =>
    have hb := h b (by simp)
    have hstep : utf8Step b rest = .error rest := by
      unfold utf8Step
      have h1 : ¬ b < 0x80 := by omega
      have h2 : ¬ (0xC2 ≤ b && b ≤ 0xDF) = true := by simp; omega
      have h3 : ¬ (0xE0 ≤ b && b ≤ 0xEF) = true := by simp; omega
      have h4 : ¬ (0xF0 ≤ b && b ≤ 0xF4) = true := by simp; omega
      simp [h1, h2, h3, h4]
    rw [utf8_decode]
    split
    · next c rem heq => rw [hstep] at heq; exact absurd heq (by simp)
    · next rem heq =>
      rw [hstep] at heq
      have : rem = rest := by
        have := heq
        simp at this
        exact this.symm
      subst this
      rw [if_pos rfl]
      exact ih (fun x hx => h x (by simp [hx]))

/-! ## JSON pretty-printing, `json.dumps(v, indent=2, ensure_ascii=False)`

With `indent=2` the default separators are `(',', ': ')`: containers open
with a newline,每 item on its own line indented two spaces per nesting
level, and the closing bracket on its own line at the enclosing level.
`ensure_ascii=False` keeps non-ASCII characters verbatim; only `"`, `\`
and control characters below U+0020 are escaped (`\b \t \n \f \r`, and
`\u00xx` for the rest). -/

def lbrace : Char := Char.ofNat 123

def rbrace : Char := Char.ofNat 125

def digitChar (d : Nat) : Char := Char.ofNat (48 + d)

/-- Lowercase hex digit, as CPython's `'\u%04x'` formatting emits. -/
def hexDigitChar (n : Nat) : Char :=
  if n < 10 then Char.ofNat (48 + n) else Char.ofNat (87 + n)

def escapeChar (c : Char) : List Char :=
  if c = '"' then ['\\', '"']
  else if c = '\\' then ['\\', '\\']
  else if c = '\n' then ['\\', 'n']
  else if c = '\t' then ['\\', 't']
  else if c = '\r' then ['\\', 'r']
  else if c.toNat = 8 then ['\\', 'b']
  else if c.toNat = 12 then ['\\', 'f']
  else if c.toNat < 0x20 then
    ['\\', 'u', '0', '0', hexDigitChar (c.toNat / 16), hexDigitChar (c.toNat % 16)]
  else [c]

def quoteStr (s : List Char) : List Char :=
  '"' :: (s.map escapeChar).flatten ++ ['"']

def natToChars (n : Nat) : List Char :=
  if n = 0 then ['0'] else (Nat.digits 10 n).reverse.map digitChar

def intToChars (i : Int) : List Char :=
  if i < 0 then '-' :: natToChars i.natAbs else natToChars i.toNat

def indentChars (lvl : Nat) : List Char := List.replicate (2 * lvl) ' '

mutual

def prettyAux : Nat → Json → List Char
  | _, .null => ['n', 'u', 'l', 'l']
  | _, .bool true => ['t', 'r', 'u', 'e']
  | _, .bool false => ['f', 'a', 'l', 's', 'e']
  | _, .int i => intToChars i
  | _, .str s => quoteStr s
  | _, .arr [] => ['[', ']']
  | lvl, .arr (x :: xs) =>
    '[' :: '\n' :: (prettyItems (lvl + 1) (x :: xs) ++
      '\n' :: (indentChars lvl ++ [']']))
  | _, .obj [] => [lbrace, rbrace]
  | lvl, .obj (m :: ms) =>
    lbrace :: '\n' :: (prettyMembers (lvl + 1) (m :: ms) ++
      '\n' :: (indentChars lvl ++ [rbrace]))

def prettyItems : Nat → List Json → List Char
  | _, [] => []
  | lvl, x :: xs =>
    indentChars lvl ++ prettyAux lvl x ++
      (match xs with
       | [] => []
       | _ :: _ => ',' :: '\n' :: prettyItems lvl xs)

def prettyMembers : Nat → List (List Char × Json) → List Char
  | _, [] => []
  | lvl, (k, v) :: ms =>
    indentChars lvl ++ quoteStr k ++ ':' :: ' ' :: prettyAux lvl v ++
      (match ms with
       | [] => []
       | _ :: _ => ',' :: '\n' :: prettyMembers lvl ms)

end

/-- The string `log_request_info` prints for a JSON body. -/
def pretty (v : Json) : List Char := prettyAux 0 v

/-! ## JSON parsing, `json.loads`

A recursive-descent parser over the same surface `json.loads` accepts
for the values of the model: whitespace-insensitive, the three literals,
integers, escaped strings, arrays and objects (an object's member list
goes through `dict(pairs)`, i.e. `pyDictFromPairs`, exactly as CPython's
scanner builds a dict from the collected pairs).  Number syntax with a
fraction or exponent (Python floats) is outside the model and is
rejected rather than misread.  Recursion is fueled; `jsonParse` supplies
fuel `length + 1`, enough for every input the printer emits (proved
below). -/

def isWsChar (c : Char) : Bool := c = ' ' || c = '\t' || c = '\n' || c = '\r'

def skipWs : List Char → List Char
  | [] => []
  | c :: r => if isWsChar c then skipWs r else c :: r

def hexVal (c : Char) : Option Nat :=
  if '0' ≤ c && c ≤ '9' then some (c.toNat - 48)
  else if 'a' ≤ c && c ≤ 'f' then some (c.toNat - 87)
  else if 'A' ≤ c && c ≤ 'F' then some (c.toNat - 55)
  else none

def escDecode (e : Char) : Option Char :=
  if e = '"' then some '"'
  else if e = '\\' then some '\\'
  else if e = '/' then some '/'
  else if e = 'b' then some (Char.ofNat 8)
  else if e = 'f' then some (Char.ofNat 12)
  else if e = 'n' then some '\n'
  else if e = 'r' then some '\r'
  else if e = 't' then some '\t'
  else none

/-- Parse the remainder of a string literal (the opening quote already
consumed): the decoded characters and the input after the closing quote. -/
def parseStr : List Char → Option (List Char × List Char)
  | [] => none
  | c :: r =>
    if c = '"' then some ([], r)
    else if c = '\\' then
      match r with
      | [] => none
      | e :: r2 =>
        if e = 'u' then
          match r2 with
          | h1 :: h2 :: h3 :: h4 :: r3 =>
            match hexVal h1, hexVal h2, hexVal h3, hexVal h4 with
            | some a, some b, some c3, some d =>
              (parseStr r3).map
                (fun p => (Char.ofNat (a * 4096 + b * 256 + c3 * 16 + d) :: p.1, p.2))
            | _, _, _, _ => none
          | _ => none
        else
          match escDecode e with
          | some d => (parseStr r2).map (fun p => (d :: p.1, p.2))
          | none => none
    else (parseStr r).map (fun p => (c :: p.1, p.2))
termination_by l => l.length
decreasing_by
  all_goals simp
  all_goals omega

/-- Consume a run of decimal digits, accumulating their value. -/
def parseDigits : List Char → Nat → Nat × List Char
  | [], acc => (acc, [])
  | c :: r, acc =>
    if c.isDigit then parseDigits r (acc * 10 + (c.toNat - 48)) else (acc, c :: r)

/-- True when the characters after an integer would make `json.loads`
read the number as a float (fraction or exponent follows). -/
def numTail : List Char → Bool
  | c :: _ => c = '.' || c = 'e' || c = 'E'
  | [] => false

mutual

def parseVal : Nat → List Char → Option (Json × List Char)
  | 0, _ => none
  | fuel + 1, s =>
    match skipWs s with
    | [] => none
    | c :: r =>
      if c = lbrace then
        match skipWs r with
        | c2 :: r2 =>
          if c2 = rbrace then some (.obj [], r2)
          else
            (parseMembers fuel (c2 :: r2)).map
              (fun p => (.obj (pyDictFromPairs p.1), p.2))
        | [] => none
      else if c = '[' then
        match skipWs r with
        | c2 :: r2 =>
          if c2 = ']' then some (.arr [], r2)
          else (parseItems fuel (c2 :: r2)).map (fun p => (.arr p.1, p.2))
        | [] => none
      else if c = '"' then
        (parseStr r).map (fun p => (.str p.1, p.2))
      else if c = '-' then
        match r with
        | d :: r2 =>
          if d.isDigit then
            let q := parseDigits r2 (d.toNat - 48)
            if numTail q.2 then none else some (.int (-(q.1 : Int)), q.2)
          else none
        | [] => none
      else if c.isDigit then
        let q := parseDigits r (c.toNat - 48)
        if numTail q.2 then none else some (.int (q.1 : Int), q.2)
      else
        match c :: r with
        | 't' :: 'r' :: 'u' :: 'e' :: rest => some (.bool true, rest)
        | 'f' :: 'a' :: 'l' :: 's' :: 'e' :: rest => some (.bool false, rest)
        | 'n' :: 'u' :: 'l' :: 'l' :: rest => some (.null, rest)
        | _ => none

def parseItems : Nat → List Char → Option (List Json × List Char)
  | 0, _ => none
  | fuel + 1, s =>
    match parseVal fuel s with
    | none => none
    | some (v, r) =>
      match skipWs r with
      | c :: r2 =>
        if c = ',' then (parseItems fuel r2).map (fun p => (v :: p.1, p.2))
        else if c = ']' then some ([v], r2)
        else none
      | [] => none

def parseMembers : Nat → List Char → Option (List (List Char × Json) × List Char)
  | 0, _ => none
  | fuel + 1, s =>
    match skipWs s with
    | c :: r =>
      if c = '"' then
        match parseStr r with
        | some (k, r2) =>
          match skipWs r2 with
          | c2 :: r3 =>
            if c2 = ':' then
              match parseVal fuel r3 with
              | some (v, r4) =>
                match skipWs r4 with
                | c3 :: r5 =>
                  if c3 = ',' then
                    (parseMembers fuel r5).map (fun p => ((k, v) :: p.1, p.2))
                  else if c3 = rbrace then some ([(k, v)], r5)
                  else none
                | [] => none
              | none => none
            else none
          | [] => none
        | none => none
      else none
    | [] => none

end

/-- `json.loads` over the model: parse one value, require only trailing
whitespace after it. -/
def jsonParse (s : List Char) : Option Json :=
  match parseVal (s.length + 1) s with
  | some (v, rest) => if skipWs rest = [] then some v else none
  | none => none

/-! ## The incoming request

What the middleware and the handler read off a Starlette `Request`:
the method, the URL, the raw header list (in received order, names
already lowercased by the ASGI server), the query parameters, the
optional peer address and the raw body bytes. -/

structure Request where
  method : String
  url : String
  rawHeaders : List (String × String)
  queryParams : List (String × String)
  client : Option (String × Nat)
  body : List Nat

/-! ## `catch_all_endpoint` (src/main.py lines 118-127)

Registered for methods GET, POST, PUT, DELETE, PATCH, OPTIONS, HEAD on
route `/{path:path}`.  Returning a plain dict from a FastAPI handler
produces a JSON response with the route's default status code 200. -/

def supportedMethods : List String :=
  ["GET", "POST", "PUT", "DELETE", "PATCH", "OPTIONS", "HEAD"]

structure CatchAllBody where
  status : String
  message : String
  received_at : String
  path : String
  method : String
deriving Repr, DecidableEq

structure HttpResponse where
  status_code : Nat
  body : CatchAllBody
deriving Repr, DecidableEq

/-- `catch_all_endpoint(request, path)`; `now` stands for the
`datetime.now().isoformat()` string taken at response construction. -/
def catch_all_endpoint (req : Request) (path : String) (now : String) :
    HttpResponse :=
  { status_code := 200
    body :=
      { status := "success"
        message := "路径 /" ++ path ++ " 的 " ++ req.method ++ " 请求已接收"
        received_at := now
        path := path
        method := req.method } }

/-! ## `log_request_info` (src/main.py lines 44-116)

The middleware's observable behaviour: the `request_info` dict, the
`response_info` dict, and the ordered sequence of `logger.info` calls.
Timestamps are opaque inputs (`start_time`/`end_time` appear both as an
instant, a rational number of seconds for the subtraction, and as their
rendered forms).  Lines whose only varying payload is a whole dict or a
formatted number are modelled structurally rather than as rendered
text. -/

structure RequestRecord where
  timestamp : String
  method : String
  url : String
  headers : List (String × String)
  query_params : List (String × String)
  client : String
  body_size : Nat
  body_content : Option (List Char)

structure ResponseRecord where
  timestamp : String
  status_code : Nat
  process_time : ℚ

/-- The `request_info` dict (lines 53-62). -/
def mkRequestInfo (req : Request) (startIso : String) : RequestRecord :=
  { timestamp := startIso
    method := req.method
    url := req.url
    headers := dictOfHeaders req.rawHeaders
    query_params := pyDictFromPairs req.queryParams
    client :=
      match req.client with
      | some hp => hp.1 ++ ":" ++ toString hp.2
      | none => "unknown"
    body_size := req.body.length
    body_content := if req.body = [] then none else some (decodeIgnore req.body) }

inductive LogLine where
  | text (s : String) : LogLine
  | statusLine (status_code : Nat) (process_time : ℚ) : LogLine
  | reqDetail (r : RequestRecord) : LogLine
  | respDetail (r : ResponseRecord) : LogLine

/-- Lines 85-93: body section, only when `body_content` is truthy
(neither `None` nor the empty string); pretty-printed when `json.loads`
succeeds, the raw decoded text otherwise. -/
def bodySectionLines (bc : Option (List Char)) : List LogLine :=
  match bc with
  | none => []
  | some s =>
    if s = [] then []
    else
      [LogLine.text "📄 请求体内容:",
       match jsonParse s with
       | some v => LogLine.text (String.mk (pretty v))
       | none => LogLine.text (String.mk s)]

/-- Lines 65-98, in emission order. -/
def preLogLines (info : RequestRecord) (startDisplay : String) : List LogLine :=
  [LogLine.text (String.mk (List.replicate 80 '=')),
   LogLine.text ("📨 收到请求 - " ++ startDisplay),
   LogLine.text ("📍 方法: " ++ info.method),
   LogLine.text ("🔗 URL: " ++ info.url),
   LogLine.text ("🌐 客户端: " ++ info.client),
   LogLine.text ("📏 请求体大小: " ++ toString info.body_size ++ " bytes"),
   LogLine.text (String.mk (List.replicate 80 '-')),
   LogLine.text "📋 请求头:"] ++
  info.headers.map (fun p => LogLine.text ("   " ++ p.1 ++ ": " ++ p.2)) ++
  (if info.query_params = [] then []
   else
     LogLine.text "🔍 查询参数:" ::
       info.query_params.map (fun p => LogLine.text ("   " ++ p.1 ++ ": " ++ p.2))) ++
  bodySectionLines info.body_content ++
  [LogLine.text (String.mk (List.replicate 80 '=')), LogLine.reqDetail info]

/-- Line 105: `(end_time - start_time).total_seconds()`. -/
def processTime (startT endT : ℚ) : ℚ := endT - startT

/-- Lines 113-114, in emission order. -/
def postLogLines (respInfo : ResponseRecord) : List LogLine :=
  [LogLine.statusLine respInfo.status_code respInfo.process_time,
   LogLine.respDetail respInfo]

structure MiddlewareRun where
  info : RequestRecord
  respInfo : ResponseRecord
  lines : List LogLine
  response : HttpResponse

/-- The whole middleware for one request lifecycle.  `response` is what
`await call_next(request)` returned (the downstream handler's response);
the middleware hands it back unchanged. -/
def log_request_info (req : Request) (startIso startDisplay : String)
    (startT : ℚ) (response : HttpResponse) (endIso : String) (endT : ℚ) :
    MiddlewareRun :=
  let info := mkRequestInfo req startIso
  let respInfo : ResponseRecord :=
    { timestamp := endIso
      status_code := response.status_code
      process_time := processTime startT endT }
  { info := info
    respInfo := respInfo
    lines := preLogLines info startDisplay ++ postLogLines respInfo
    response := response }

/-! ## Supporting lemmas: whitespace and parser congruence -/

theorem skipWs_cons_ws {c : Char} {s : List Char} (h : isWsChar c = true) :
    skipWs (c :: s) = skipWs s := by
  simp [skipWs, h]

theorem skipWs_cons_not_ws {c : Char} {s : List Char} (h : isWsChar c = false) :
    skipWs (c :: s) = c :: s := by
  simp [skipWs, h]

theorem skipWs_append_ws {w s : List Char} (h : ∀ c ∈ w, isWsChar c = true) :
    skipWs (w ++ s) = skipWs s := by
  induction w with
  | nil => rfl
  | cons c w ih =>
    rw [List.cons_append, skipWs_cons_ws (h c (by simp))]
    exact ih (fun x hx => h x (by simp [hx]))

theorem skipWs_indent (k : Nat) (s : List Char) :
    skipWs (indentChars k ++ s) = skipWs s := by
  refine skipWs_append_ws (fun c hc => ?_)
  rw [indentChars] at hc
  have : c = ' ' := List.eq_of_mem_replicate hc
  subst this
  decide

theorem parseVal_congr {f : Nat} {s1 s2 : List Char}
    (h : skipWs s1 = skipWs s2) : parseVal f s1 = parseVal f s2 := by
  cases f with
  | zero => rfl
  | succ g => simp only [parseVal]; rw [h]

theorem parseItems_congr {f : Nat} {s1 s2 : List Char}
    (h : skipWs s1 = skipWs s2) : parseItems f s1 = parseItems f s2 := by
  cases f with
  | zero => rfl
  | succ g => simp only [parseItems]; rw [parseVal_congr h]

theorem parseMembers_congr {f : Nat} {s1 s2 : List Char}
    (h : skipWs s1 = skipWs s2) : parseMembers f s1 = parseMembers f s2 := by
  cases f with
  | zero => rfl
  | succ g => simp only [parseMembers]; rw [h]

/-! ## Supporting lemmas: digits and numbers -/

theorem hexVal_hexDigitChar : ∀ d < 16, hexVal (hexDigitChar d) = some d := by
  decide

theorem digitChar_isDigit : ∀ d < 10, (digitChar d).isDigit = true := by
  decide

theorem digitChar_toNat : ∀ d < 10, (digitChar d).toNat - 48 = d := by
  decide

theorem digitChar_head : ∀ d < 10,
    isWsChar (digitChar d) = false ∧ digitChar d ≠ ']' ∧
      digitChar d ≠ lbrace ∧ digitChar d ≠ '[' ∧ digitChar d ≠ '"' ∧
      digitChar d ≠ '-' := by
  decide

theorem parseDigits_map (ds : List Nat) (hds : ∀ d ∈ ds, d < 10)
    (rest : List Char) (hrest : ∀ c r2, rest = c :: r2 → c.isDigit = false) :
    ∀ acc, parseDigits (ds.map digitChar ++ rest) acc =
      (ds.foldl (fun a d => a * 10 + d) acc, rest) := by
  induction ds with
  | nil =>
    intro acc
    match rest with
    | [] => rfl
    | c :: r2 =>
      have hc := hrest c r2 rfl
      simp [parseDigits, hc]
  | cons d ds ih =>
    intro acc
    have hd : d < 10 := hds d (by simp)
    simp only [List.map_cons, List.cons_append, parseDigits,
      digitChar_isDigit d hd, if_true, digitChar_toNat d hd,
      List.append_eq, List.foldl_cons]
    exact ih (fun x hx => hds x (by simp [hx])) (acc * 10 + d)

theorem foldl_mul_add_reverse (L : List Nat) :
    ∀ acc, L.reverse.foldl (fun a d => a * 10 + d) acc =
      acc * 10 ^ L.length + Nat.ofDigits 10 L := by
  induction L with
  | nil => intro acc; simp
  | cons x xs ih =>
    intro acc
    rw [List.reverse_cons, List.foldl_append, ih acc]
    simp only [List.foldl_cons, List.foldl_nil, Nat.ofDigits_cons,
      List.length_cons]
    rw [pow_succ]
    ring

theorem natToChars_digits (n : Nat) :
    ∃ (d0 : Nat) (ds : List Nat),
      natToChars n = digitChar d0 :: ds.map digitChar ∧ d0 < 10 ∧
      (∀ d ∈ ds, d < 10) ∧ ds.foldl (fun a d => a * 10 + d) d0 = n := by
  by_cases h : n = 0
  · subst h
    exact ⟨0, [], rfl, by decide, by simp, rfl⟩
  · have hL : Nat.digits 10 n ≠ [] := Nat.digits_ne_nil_iff_ne_zero.mpr h
    match hr : (Nat.digits 10 n).reverse with
    | [] => exact absurd (by simpa using congrArg List.reverse hr) hL
    | d0 :: ds =>
      refine ⟨d0, ds, ?_, ?_, ?_, ?_⟩
      · rw [natToChars, if_neg h, hr, List.map_cons]
      · have : d0 ∈ Nat.digits 10 n := by
          have : d0 ∈ (Nat.digits 10 n).reverse := by rw [hr]; simp
          simpa using this
        exact Nat.digits_lt_base (by norm_num) this
      · intro d hd
        have : d ∈ Nat.digits 10 n := by
          have : d ∈ (Nat.digits 10 n).reverse := by rw [hr]; simp [hd]
          simpa using this
        exact Nat.digits_lt_base (by norm_num) this
      · have hstep := foldl_mul_add_reverse (Nat.digits 10 n) 0
        rw [hr, Nat.ofDigits_digits, zero_mul, zero_add] at hstep
        simpa using hstep

/-! ## Supporting lemmas: string literals round-trip -/

theorem parseStr_close (r : List Char) : parseStr ('"' :: r) = some ([], r) := by
  rw [parseStr.eq_def]
  simp

theorem parseStr_esc {e d : Char} (he : escDecode e = some d) (hu : e ≠ 'u')
    (T : List Char) :
    parseStr ('\\' :: e :: T) = (parseStr T).map (fun p => (d :: p.1, p.2)) := by
  rw [parseStr.eq_def]
  simp only [reduceIte, if_neg hu, he, Char.reduceEq]

theorem parseStr_u {h1 h2 h3 h4 : Char} {a b c3 d : Nat}
    (ha : hexVal h1 = some a) (hb : hexVal h2 = some b)
    (hc : hexVal h3 = some c3) (hd : hexVal h4 = some d) (T : List Char) :
    parseStr ('\\' :: 'u' :: h1 :: h2 :: h3 :: h4 :: T) =
      (parseStr T).map
        (fun p => (Char.ofNat (a * 4096 + b * 256 + c3 * 16 + d) :: p.1, p.2)) := by
  rw [parseStr.eq_def]
  simp only [reduceIte, ha, hb, hc, hd, Char.reduceEq]

theorem parseStr_plain {c : Char} (h1 : c ≠ '"') (h2 : c ≠ '\\')
    (T : List Char) :
    parseStr (c :: T) = (parseStr T).map (fun p => (c :: p.1, p.2)) := by
  rw [parseStr.eq_def]
  simp only [if_neg h1, if_neg h2]

theorem parseStr_quote (s : List Char) :
    ∀ rest, parseStr ((s.map escapeChar).flatten ++ '"' :: rest) =
      some (s, rest) := by
  induction s with
  | nil => intro rest; simp [parseStr_close]
  | cons c s ih =>
    intro rest
    rw [List.map_cons, List.flatten_cons, List.append_assoc]
    by_cases hc1 : c = '"'
    · have hesc : escapeChar c = ['\\', '"'] := by rw [hc1]; decide
      rw [hesc, List.cons_append, List.cons_append, List.nil_append,
        parseStr_esc (e := '"') (d := '"') (by decide) (by decide), ih rest, hc1]
      rfl
    · by_cases hc2 : c = '\\'
      · have hesc : escapeChar c = ['\\', '\\'] := by rw [hc2]; decide
        rw [hesc, List.cons_append, List.cons_append, List.nil_append,
          parseStr_esc (e := '\\') (d := '\\') (by decide) (by decide), ih rest, hc2]
        rfl
      · by_cases hc3 : c = '\n'
        · have hesc : escapeChar c = ['\\', 'n'] := by
            simp [escapeChar, hc1, hc2, hc3]
          rw [hesc, List.cons_append, List.cons_append, List.nil_append,
            parseStr_esc (e := 'n') (d := '\n') (by decide) (by decide), ih rest, hc3]
          rfl
        · by_cases hc4 : c = '\t'
          · have hesc : escapeChar c = ['\\', 't'] := by
              simp [escapeChar, hc1, hc2, hc3, hc4]
            rw [hesc, List.cons_append, List.cons_append, List.nil_append,
              parseStr_esc (e := 't') (d := '\t') (by decide) (by decide), ih rest, hc4]
            rfl
          · by_cases hc5 : c = '\r'
            · have hesc : escapeChar c = ['\\', 'r'] := by
                simp [escapeChar, hc1, hc2, hc3, hc4, hc5]
              rw [hesc, List.cons_append, List.cons_append, List.nil_append,
                parseStr_esc (e := 'r') (d := '\r') (by decide) (by decide), ih rest, hc5]
              rfl
            · by_cases hc6 : c.toNat = 8
              · have hcv : c = Char.ofNat 8 := by
                  have := Char.ofNat_toNat c
                  rw [hc6] at this
                  exact this.symm
                have hesc : escapeChar c = ['\\', 'b'] := by
                  simp [escapeChar, hc1, hc2, hc3, hc4, hc5, hc6]
                rw [hesc, List.cons_append, List.cons_append, List.nil_append,
                  parseStr_esc (e := 'b') (d := Char.ofNat 8) (by decide) (by decide), ih rest, hcv]
                rfl
              · by_cases hc7 : c.toNat = 12
                · have hcv : c = Char.ofNat 12 := by
                    have := Char.ofNat_toNat c
                    rw [hc7] at this
                    exact this.symm
                  have hesc : escapeChar c = ['\\', 'f'] := by
                    simp [escapeChar, hc1, hc2, hc3, hc4, hc5, hc6, hc7]
                  rw [hesc, List.cons_append, List.cons_append, List.nil_append,
                    parseStr_esc (e := 'f') (d := Char.ofNat 12) (by decide) (by decide), ih rest, hcv]
                  rfl
                · by_cases hc8 : c.toNat < 0x20
                  · have hesc : escapeChar c =
                        ['\\', 'u', '0', '0', hexDigitChar (c.toNat / 16),
                          hexDigitChar (c.toNat % 16)] := by
                      simp [escapeChar, hc1, hc2, hc3, hc4, hc5, hc6, hc7, hc8]
                    have ht16 : c.toNat / 16 < 16 := by omega
                    have hm16 : c.toNat % 16 < 16 := Nat.mod_lt _ (by norm_num)
                    rw [hesc]
                    simp only [List.cons_append, List.nil_append]
                    rw [parseStr_u (show hexVal '0' = some 0 by decide)
                      (show hexVal '0' = some 0 by decide)
                      (hexVal_hexDigitChar _ ht16) (hexVal_hexDigitChar _ hm16),
                      ih rest]
                    have harith : 0 * 4096 + 0 * 256 + c.toNat / 16 * 16 +
                        c.toNat % 16 = c.toNat := by omega
                    rw [harith, Char.ofNat_toNat]
                    rfl
                  · have hesc : escapeChar c = [c] := by
                      simp [escapeChar, hc1, hc2, hc3, hc4, hc5, hc6, hc7, hc8]
                    rw [hesc, List.cons_append, List.nil_append,
                      parseStr_plain hc1 hc2, ih rest]
                    rfl

/-! ## Supporting lemmas: Python dict semantics -/

section DictLemmas

variable {κ α : Type} [DecidableEq κ]

theorem pyDictSet_keys (d : List (κ × α)) (k : κ) (v : α) :
    (pyDictSet d k v).map Prod.fst =
      if k ∈ d.map Prod.fst then d.map Prod.fst else d.map Prod.fst ++ [k] := by
  rw [pyDictSet]
  by_cases h : d.any (fun p => p.1 = k)
  · rw [if_pos h]
    have hk : k ∈ d.map Prod.fst := by
      simp only [List.any_eq_true, decide_eq_true_eq] at h
      obtain ⟨p, hp, hpk⟩ := h
      exact List.mem_map.mpr ⟨p, hp, hpk⟩
    rw [if_pos hk, List.map_map]
    refine List.map_congr_left (fun p _ => ?_)
    by_cases hp : p.1 = k <;> simp [hp]
  · rw [if_neg h]
    have hk : k ∉ d.map Prod.fst := by
      intro hmem
      obtain ⟨p, hp, hpk⟩ := List.mem_map.mp hmem
      exact h (List.any_eq_true.mpr ⟨p, hp, by simp [hpk]⟩)
    rw [if_neg hk]
    simp

theorem pyDictSet_mem {d : List (κ × α)} {k : κ} {v : α} :
    ∀ q ∈ pyDictSet d k v, q ∈ d ∨ q = (k, v) := by
  intro q hq
  rw [pyDictSet] at hq
  split at hq
  · obtain ⟨p, hp, hpq⟩ := List.mem_map.mp hq
    by_cases hpk : p.1 = k
    · right
      rw [if_pos hpk] at hpq
      rw [← hpq, hpk]
    · left
      rw [if_neg hpk] at hpq
      rw [← hpq]
      exact hp
  · rcases List.mem_append.mp hq with h | h
    · exact Or.inl h
    · exact Or.inr (by simpa using h)

theorem foldl_pyDictSet_nodup (prs : List (κ × α)) :
    ∀ acc : List (κ × α), (acc.map Prod.fst).Nodup →
      ((prs.foldl (fun d p => pyDictSet d p.1 p.2) acc).map Prod.fst).Nodup := by
  induction prs with
  | nil => intro acc h; exact h
  | cons p prs ih =>
    intro acc h
    rw [List.foldl_cons]
    refine ih _ ?_
    rw [pyDictSet_keys]
    split
    · exact h
    · next hk => exact List.Nodup.append h (by simp) (by simpa using hk)

theorem foldl_pyDictSet_mem (prs : List (κ × α)) :
    ∀ (acc : List (κ × α)) q, q ∈ prs.foldl (fun d p => pyDictSet d p.1 p.2) acc →
      q ∈ acc ∨ q ∈ prs := by
  induction prs with
  | nil => intro acc q h; exact Or.inl h
  | cons p prs ih =>
    intro acc q h
    rw [List.foldl_cons] at h
    rcases ih _ q h with h1 | h1
    · rcases pyDictSet_mem q h1 with h2 | h2
      · exact Or.inl h2
      · right
        rw [h2]
        simp
    · right
      simp [h1]

theorem pyDictFromPairs_keys_nodup (prs : List (κ × α)) :
    ((pyDictFromPairs prs).map Prod.fst).Nodup :=
  foldl_pyDictSet_nodup prs [] (by simp)

theorem pyDictFromPairs_mem {prs : List (κ × α)} :
    ∀ q ∈ pyDictFromPairs prs, q ∈ prs := by
  intro q hq
  rcases foldl_pyDictSet_mem prs [] q hq with h | h
  · simp at h
  · exact h

theorem foldl_pyDictSet_disjoint (prs : List (κ × α)) :
    ∀ acc : List (κ × α),
      ((acc.map Prod.fst ++ prs.map Prod.fst)).Nodup →
      prs.foldl (fun d p => pyDictSet d p.1 p.2) acc = acc ++ prs := by
  induction prs with
  | nil => intro acc _; simp
  | cons p prs ih =>
    intro acc h
    rw [List.foldl_cons]
    have hk : p.1 ∉ acc.map Prod.fst := by
      intro hmem
      have := (List.nodup_append.mp h).2.2
      exact this hmem (by simp)
    have hcond : ¬(acc.any (fun q => q.1 = p.1) = true) := by
      intro hany
      simp only [List.any_eq_true, decide_eq_true_eq] at hany
      obtain ⟨q, hq, hqk⟩ := hany
      exact hk (List.mem_map.mpr ⟨q, hq, hqk⟩)
    have hset : pyDictSet acc p.1 p.2 = acc ++ [p] := by
      rw [pyDictSet, if_neg hcond]
    rw [hset, ih (acc ++ [p]) ?_]
    · rw [List.append_assoc]
      rfl
    · simp only [List.map_append, List.map_cons] at h ⊢
      simp only [List.append_assoc]
      have : (acc.map Prod.fst ++ ([p.1] ++ prs.map Prod.fst)).Nodup := by
        simpa using h
      exact this

theorem pyDictFromPairs_self {prs : List (κ × α)}
    (h : (prs.map Prod.fst).Nodup) : pyDictFromPairs prs = prs := by
  have := foldl_pyDictSet_disjoint prs [] (by simpa using h)
  simpa using this

end DictLemmas

/-! ## Supporting lemmas: the header dict -/

/-- Key list with later duplicates dropped (first occurrence kept),
relative order preserved; `seen` are keys already emitted. -/
def firstDedupFrom {κ : Type} [DecidableEq κ] (seen : List κ) :
    List κ → List κ
  | [] => []
  | k :: ks =>
    if k ∈ seen then firstDedupFrom seen ks
    else k :: firstDedupFrom (k :: seen) ks

def firstDedup {κ : Type} [DecidableEq κ] (l : List κ) : List κ :=
  firstDedupFrom [] l

theorem firstDedupFrom_congr {κ : Type} [DecidableEq κ] :
    ∀ (l : List κ) (s1 s2 : List κ), (∀ x, x ∈ s1 ↔ x ∈ s2) →
      firstDedupFrom s1 l = firstDedupFrom s2 l := by
  intro l
  induction l with
  | nil => intro s1 s2 _; rfl
  | cons k ks ih =>
    intro s1 s2 hs
    rw [firstDedupFrom, firstDedupFrom]
    by_cases hk : k ∈ s1
    · rw [if_pos hk, if_pos ((hs k).mp hk)]
      exact ih s1 s2 hs
    · rw [if_neg hk, if_neg (fun hx => hk ((hs k).mpr hx))]
      refine congrArg _ (ih _ _ (fun x => ?_))
      simp [hs x]

theorem firstLookup_isSome_of_mem {κ α : Type} [DecidableEq κ]
    {l : List (κ × α)} {p : κ × α} (hp : p ∈ l) :
    ∃ v, firstLookup l p.1 = some v := by
  rw [firstLookup]
  have : (l.find? (fun q => q.1 = p.1)).isSome := by
    rw [List.find?_isSome]
    exact ⟨p, hp, by simp⟩
  obtain ⟨q, hq⟩ := Option.isSome_iff_exists.mp this
  exact ⟨q.2, by rw [hq]; rfl⟩

theorem dictOfHeaders_keys_aux (l : List (String × String)) :
    ∀ (td : List (String × String)) (acc : List (String × String)),
      (∀ p ∈ td, ∃ v, firstLookup l p.1 = some v) →
      ((td.foldl
          (fun d p =>
            match firstLookup l p.1 with
            | some v => pyDictSet d p.1 v
            | none => d)
          acc).map Prod.fst) =
        acc.map Prod.fst ++
          firstDedupFrom (acc.map Prod.fst) (td.map Prod.fst) := by
  intro td
  induction td with
  | nil => intro acc _; simp [firstDedupFrom]
  | cons p td ih =>
    intro acc hsome
    obtain ⟨v, hv⟩ := hsome p (by simp)
    rw [List.foldl_cons, List.map_cons, firstDedupFrom]
    simp only [hv]
    by_cases hk : p.1 ∈ acc.map Prod.fst
    · rw [if_pos hk]
      have hkeys : (pyDictSet acc p.1 v).map Prod.fst = acc.map Prod.fst := by
        rw [pyDictSet_keys, if_pos hk]
      rw [ih _ (fun q hq => hsome q (by simp [hq])), hkeys]
    · rw [if_neg hk]
      have hkeys : (pyDictSet acc p.1 v).map Prod.fst =
          acc.map Prod.fst ++ [p.1] := by
        rw [pyDictSet_keys, if_neg hk]
      rw [ih _ (fun q hq => hsome q (by simp [hq])), hkeys]
      rw [List.append_assoc, List.singleton_append]
      refine congrArg _ (congrArg _ (firstDedupFrom_congr _ _ _ (fun x => ?_)))
      simp [or_comm]

theorem dictOfHeaders_keys (l : List (String × String)) :
    (dictOfHeaders l).map Prod.fst = firstDedup (l.map Prod.fst) := by
  have := dictOfHeaders_keys_aux l l []
    (fun p hp => firstLookup_isSome_of_mem hp)
  simpa [dictOfHeaders, firstDedup] using this

theorem dictOfHeaders_values_aux (l : List (String × String)) :
    ∀ (td : List (String × String)) (acc : List (String × String)),
      (∀ q ∈ acc, firstLookup l q.1 = some q.2) →
      ∀ q ∈ td.foldl
          (fun d p =>
            match firstLookup l p.1 with
            | some v => pyDictSet d p.1 v
            | none => d)
          acc, firstLookup l q.1 = some q.2 := by
  intro td
  induction td with
  | nil => intro acc h; exact h
  | cons p td ih =>
    intro acc hacc q hq
    rw [List.foldl_cons] at hq
    match hv : firstLookup l p.1 with
    | none =>
      rw [hv] at hq
      exact ih acc hacc q hq
    | some v =>
      rw [hv] at hq
      refine ih _ ?_ q hq
      intro r hr
      rcases pyDictSet_mem r hr with h1 | h1
      · exact hacc r h1
      · rw [h1]
        exact hv

theorem dictOfHeaders_values (l : List (String × String)) :
    ∀ q ∈ dictOfHeaders l, firstLookup l q.1 = some q.2 :=
  dictOfHeaders_values_aux l l [] (by simp)

/-! ## Supporting definitions and lemmas: round-trip bookkeeping -/

mutual

/-- Fuel needed to parse the printed form of a value: one unit per
`parseVal` call plus one per `parseItems`/`parseMembers` call. -/
def jsizeV : Json → Nat
  | .null => 1
  | .bool _ => 1
  | .int _ => 1
  | .str _ => 1
  | .arr l => 1 + jsizeL l
  | .obj m => 1 + jsizeM m

def jsizeL : List Json → Nat
  | [] => 0
  | x :: xs => 1 + jsizeV x + jsizeL xs

def jsizeM : List (List Char × Json) → Nat
  | [] => 0
  | p :: ms => 1 + jsizeV p.2 + jsizeM ms

end

theorem jsizeV_pos (v : Json) : 1 ≤ jsizeV v := by
  cases v <;> simp [jsizeV]



/-- The values `json.loads` can return: every object's keys are distinct
(the scanner collapses duplicate keys through the dict it builds). -/
inductive Canonical : Json → Prop where
  | null : Canonical .null
  | bool (b : Bool) : Canonical (.bool b)
  | int (n : Int) : Canonical (.int n)
  | str (s : List Char) : Canonical (.str s)
  | arr (l : List Json) : (∀ x ∈ l, Canonical x) → Canonical (.arr l)
  | obj (m : List (List Char × Json)) : ((m.map Prod.fst).Nodup) →
      (∀ p ∈ m, Canonical p.2) → Canonical (.obj m)

theorem natToChars_ne_nil (n : Nat) : natToChars n ≠ [] := by
  rw [natToChars]
  split
  · simp
  · next h =>
    have hne : Nat.digits 10 n ≠ [] := Nat.digits_ne_nil_iff_ne_zero.mpr h
    simp only [ne_eq, List.map_eq_nil_iff, List.reverse_eq_nil_iff]
    exact hne

theorem intToChars_ne_nil (i : Int) : intToChars i ≠ [] := by
  rw [intToChars]
  split
  · simp
  · exact natToChars_ne_nil _

/-- The first character a printed value starts with: never whitespace and
never a closing bracket, so the parser's lookahead lands on it. -/
theorem prettyAux_head (lvl : Nat) (v : Json) :
    ∃ c t, prettyAux lvl v = c :: t ∧ isWsChar c = false ∧ c ≠ ']' := by
  match v with
  | .null => exact ⟨'n', _, rfl, by decide, by decide⟩
  | .bool true => exact ⟨'t', _, rfl, by decide, by decide⟩
  | .bool false => exact ⟨'f', _, rfl, by decide, by decide⟩
  | .int i =>
    rw [prettyAux, intToChars]
    split
    · obtain ⟨d0, ds, hn, hd0, _, _⟩ := natToChars_digits i.natAbs
      exact ⟨'-', _, rfl, by decide, by decide⟩
    · obtain ⟨d0, ds, hn, hd0, _, _⟩ := natToChars_digits i.toNat
      refine ⟨digitChar d0, ds.map digitChar, hn, ?_, ?_⟩
      · exact (digitChar_head d0 hd0).1
      · exact (digitChar_head d0 hd0).2.1
  | .str s => exact ⟨'"', _, rfl, by decide, by decide⟩
  | .arr [] => exact ⟨'[', _, rfl, by decide, by decide⟩
  | .arr (x :: xs) => exact ⟨'[', _, rfl, by decide, by decide⟩
  | .obj [] => exact ⟨lbrace, _, rfl, by decide, by decide⟩
  | .obj (p :: ms) => exact ⟨lbrace, _, rfl, by decide, by decide⟩

mutual

theorem jsizeV_le_pretty (lvl : Nat) (v : Json) :
    jsizeV v ≤ (prettyAux lvl v).length := by
  match v with
  | .null => simp [prettyAux, jsizeV]
  | .bool b => cases b <;> simp [prettyAux, jsizeV]
  | .int i =>
    rw [prettyAux, jsizeV]
    exact List.length_pos.mpr (intToChars_ne_nil i)
  | .str s => rw [prettyAux, jsizeV, quoteStr]; simp
  | .arr [] => simp [prettyAux, jsizeV, jsizeL]
  | .arr (x :: xs) =>
    have hIL := jsizeL_le_items lvl (x :: xs)
    rw [prettyAux, jsizeV]
    simp only [List.length_cons, List.length_append, List.length_cons,
      indentChars, List.length_replicate, List.length_singleton]
    omega
  | .obj [] => simp [prettyAux, jsizeV, jsizeM]
  | .obj (p :: ms) =>
    have hIM := jsizeM_le_members lvl (p :: ms)
    rw [prettyAux, jsizeV]
    simp only [List.length_cons, List.length_append, indentChars,
      List.length_replicate, List.length_singleton]
    omega
termination_by sizeOf v

theorem jsizeL_le_items (lvl : Nat) (l : List Json) :
    jsizeL l ≤ (prettyItems (lvl + 1) l).length := by
  match l with
  | [] => simp [prettyItems.eq_def, jsizeL]
  | x :: xs =>
    have hIV := jsizeV_le_pretty (lvl + 1) x
    rw [prettyItems.eq_def, jsizeL]
    simp only []
    match xs with
    | [] =>
      simp only [List.length_append, indentChars, List.length_replicate,
        List.length_nil, jsizeL]
      omega
    | y :: ys =>
      have hIL := jsizeL_le_items lvl (y :: ys)
      simp only [List.length_append, indentChars, List.length_replicate,
        List.length_cons]
      omega
termination_by sizeOf l

theorem jsizeM_le_members (lvl : Nat) (m : List (List Char × Json)) :
    jsizeM m ≤ (prettyMembers (lvl + 1) m).length := by
  match m with
  | [] => simp [prettyMembers.eq_def, jsizeM]
  | (k, v) :: ms =>
    have hIV := jsizeV_le_pretty (lvl + 1) v
    rw [prettyMembers.eq_def, jsizeM]
    simp only []
    match ms with
    | [] =>
      simp only [List.length_append, indentChars, List.length_replicate,
        List.length_cons, List.length_nil, jsizeM]
      omega
    | q :: qs =>
      have hIM := jsizeM_le_members lvl (q :: qs)
      simp only [List.length_append, indentChars, List.length_replicate,
        List.length_cons]
      omega

termination_by sizeOf m

end

/-- What may legally follow a printed value so the parser stops exactly at
its end: nothing, or a character that neither extends a number (digit,
fraction, exponent) — the printer only ever puts `,`, `\n`, `]`, `}` or
nothing there. -/
def numSafe : List Char → Prop
  | [] => True
  | c :: _ => c.isDigit = false ∧ c ≠ '.' ∧ c ≠ 'e' ∧ c ≠ 'E'

theorem numTail_eq_false {rest : List Char} (h : numSafe rest) :
    numTail rest = false := by
  match rest with
  | [] => rfl
  | c :: r =>
    obtain ⟨_, h1, h2, h3⟩ := h
    simp [numTail, h1, h2, h3]

theorem numSafe_head_not_digit {rest : List Char} (h : numSafe rest) :
    ∀ c r2, rest = c :: r2 → c.isDigit = false := by
  intro c r2 he
  subst he
  exact h.1

theorem parseVal_null (g : Nat) (rest : List Char) :
    parseVal (g + 1) ('n' :: 'u' :: 'l' :: 'l' :: rest) =
      some (.null, rest) := by
  simp only [parseVal, skipWs_cons_not_ws (by decide : isWsChar 'n' = false)]
  rw [if_neg (by decide), if_neg (by decide), if_neg (by decide),
    if_neg (by decide), if_neg (by decide)]

theorem parseVal_true (g : Nat) (rest : List Char) :
    parseVal (g + 1) ('t' :: 'r' :: 'u' :: 'e' :: rest) =
      some (.bool true, rest) := by
  simp only [parseVal, skipWs_cons_not_ws (by decide : isWsChar 't' = false)]
  rw [if_neg (by decide), if_neg (by decide), if_neg (by decide),
    if_neg (by decide), if_neg (by decide)]

theorem parseVal_false (g : Nat) (rest : List Char) :
    parseVal (g + 1) ('f' :: 'a' :: 'l' :: 's' :: 'e' :: rest) =
      some (.bool false, rest) := by
  simp only [parseVal, skipWs_cons_not_ws (by decide : isWsChar 'f' = false)]
  rw [if_neg (by decide), if_neg (by decide), if_neg (by decide),
    if_neg (by decide), if_neg (by decide)]

theorem parseVal_str (g : Nat) (s rest : List Char) :
    parseVal (g + 1) (quoteStr s ++ rest) = some (.str s, rest) := by
  have hq : quoteStr s ++ rest =
      '"' :: ((s.map escapeChar).flatten ++ '"' :: rest) := by
    simp [quoteStr]
  rw [hq]
  simp only [parseVal, skipWs_cons_not_ws (by decide : isWsChar '"' = false)]
  rw [if_pos trivial, parseStr_quote s rest]
  rfl

theorem parseVal_int (g : Nat) (i : Int) (rest : List Char)
    (hrest : numSafe rest) :
    parseVal (g + 1) (intToChars i ++ rest) = some (.int i, rest) := by
  rw [intToChars]
  by_cases hneg : i < 0
  · rw [if_pos hneg]
    obtain ⟨d0, ds, hn, hd0, hds, hfold⟩ := natToChars_digits i.natAbs
    rw [hn, List.cons_append, List.cons_append]
    simp only [parseVal, skipWs_cons_not_ws (by decide : isWsChar '-' = false)]
    rw [if_neg (by decide), if_neg (by decide), if_neg (by decide),
      if_pos (digitChar_isDigit d0 hd0), digitChar_toNat d0 hd0]
    have hp : parseDigits (ds.map digitChar ++ rest) d0 = (i.natAbs, rest) := by
      rw [parseDigits_map ds hds rest (numSafe_head_not_digit hrest) d0, hfold]
    have hi : -(i.natAbs : Int) = i := by omega
    simp only [hp, numTail_eq_false hrest, Bool.false_eq_true, if_false, hi]
    exact if_pos trivial
  · rw [if_neg hneg]
    obtain ⟨d0, ds, hn, hd0, hds, hfold⟩ := natToChars_digits i.toNat
    rw [hn, List.cons_append]
    simp only [parseVal, skipWs_cons_not_ws (digitChar_head d0 hd0).1]
    rw [if_neg (digitChar_head d0 hd0).2.2.1,
      if_neg (digitChar_head d0 hd0).2.2.2.1,
      if_neg (digitChar_head d0 hd0).2.2.2.2.1,
      if_neg (digitChar_head d0 hd0).2.2.2.2.2,
      if_pos (digitChar_isDigit d0 hd0), digitChar_toNat d0 hd0]
    have hp : parseDigits (ds.map digitChar ++ rest) d0 = (i.toNat, rest) := by
      rw [parseDigits_map ds hds rest (numSafe_head_not_digit hrest) d0, hfold]
    have hi : (i.toNat : Int) = i := by omega
    simp only [hp, numTail_eq_false hrest, Bool.false_eq_true, if_false, hi]

theorem parseVal_arr_nil (g : Nat) (rest : List Char) :
    parseVal (g + 1) ('[' :: ']' :: rest) = some (.arr [], rest) := by
  simp only [parseVal, skipWs_cons_not_ws (by decide : isWsChar '[' = false),
    skipWs_cons_not_ws (by decide : isWsChar ']' = false)]
  rw [if_neg (by decide), if_pos trivial, if_pos trivial]

theorem parseVal_obj_nil (g : Nat) (rest : List Char) :
    parseVal (g + 1) (lbrace :: rbrace :: rest) = some (.obj [], rest) := by
  simp only [parseVal,
    skipWs_cons_not_ws (by decide : isWsChar lbrace = false),
    skipWs_cons_not_ws (by decide : isWsChar rbrace = false)]
  rw [if_pos trivial, if_pos trivial]

theorem parseVal_arr_cons (g : Nat) {r : List Char} {c2 : Char}
    {r2 : List Char} (hsk : skipWs r = c2 :: r2) (hne : c2 ≠ ']') :
    parseVal (g + 1) ('[' :: r) =
      (parseItems g (c2 :: r2)).map (fun p => (Json.arr p.1, p.2)) := by
  simp only [parseVal, skipWs_cons_not_ws (by decide : isWsChar '[' = false)]
  rw [if_neg (by decide), if_pos trivial, hsk]
  exact if_neg hne

theorem parseVal_obj_cons (g : Nat) {r : List Char} {c2 : Char}
    {r2 : List Char} (hsk : skipWs r = c2 :: r2) (hne : c2 ≠ rbrace) :
    parseVal (g + 1) (lbrace :: r) =
      (parseMembers g (c2 :: r2)).map
        (fun p => (Json.obj (pyDictFromPairs p.1), p.2)) := by
  simp only [parseVal,
    skipWs_cons_not_ws (by decide : isWsChar lbrace = false)]
  rw [if_pos trivial, hsk]
  exact if_neg hne

theorem skipWs_pretty (lvl : Nat) (v : Json) (Z : List Char) :
    ∃ c0 t0, prettyAux lvl v = c0 :: t0 ∧ isWsChar c0 = false ∧ c0 ≠ ']' ∧
      skipWs (prettyAux lvl v ++ Z) = c0 :: (t0 ++ Z) := by
  obtain ⟨c0, t0, hpa, hws, hne⟩ := prettyAux_head lvl v
  exact ⟨c0, t0, hpa, hws, hne, by
    rw [hpa, List.cons_append, skipWs_cons_not_ws hws]⟩

theorem skipWs_idem (s : List Char) : skipWs (skipWs s) = skipWs s := by
  induction s with
  | nil => rfl
  | cons c r ih =>
    by_cases h : isWsChar c
    · rw [skipWs_cons_ws h]
      exact ih
    · rw [skipWs_cons_not_ws (by simpa using h),
        skipWs_cons_not_ws (by simpa using h)]

theorem numSafe_comma (t : List Char) : numSafe (',' :: t) :=
  ⟨by decide, by decide, by decide, by decide⟩

theorem numSafe_newline (t : List Char) : numSafe ('\n' :: t) :=
  ⟨by decide, by decide, by decide, by decide⟩

theorem skipWs_items_head (lvl : Nat) (x : Json) (xs : List Json)
    (Z : List Char) :
    ∃ c0 t, skipWs (prettyItems (lvl + 1) (x :: xs) ++ Z) = c0 :: t ∧
      isWsChar c0 = false ∧ c0 ≠ ']' := by
  rw [prettyItems.eq_def]
  simp only [List.append_assoc]
  rw [skipWs_indent]
  obtain ⟨c0, t0, hpa, hws, hne, hsk⟩ := skipWs_pretty (lvl + 1) x _
  exact ⟨c0, _, hsk, hws, hne⟩

theorem skipWs_members_head (lvl : Nat) (k : List Char) (w : Json)
    (ms : List (List Char × Json)) (Z : List Char) :
    ∃ t, skipWs (prettyMembers (lvl + 1) ((k, w) :: ms) ++ Z) = '"' :: t := by
  rw [prettyMembers.eq_def]
  simp only [quoteStr, List.append_assoc, List.cons_append]
  rw [skipWs_indent, skipWs_cons_not_ws (by decide)]
  exact ⟨_, rfl⟩

theorem parseItems_last (g : Nat) {s r r2 : List Char} {v : Json}
    (hv : parseVal g s = some (v, r)) (hr : skipWs r = ']' :: r2) :
    parseItems (g + 1) s = some ([v], r2) := by
  simp only [parseItems, hv, hr, Char.reduceEq, reduceIte]

theorem parseItems_comma (g : Nat) {s r r2 : List Char} {v : Json}
    (hv : parseVal g s = some (v, r)) (hr : skipWs r = ',' :: r2) :
    parseItems (g + 1) s = (parseItems g r2).map (fun p => (v :: p.1, p.2)) := by
  simp only [parseItems, hv, hr, Char.reduceEq, reduceIte]

theorem parseMembers_last (g : Nat) {s r1 r2 r3 r4 r5 k : List Char} {w : Json}
    (hsk : skipWs s = '"' :: r1) (hstr : parseStr r1 = some (k, r2))
    (hsk2 : skipWs r2 = ':' :: r3) (hv : parseVal g r3 = some (w, r4))
    (hr : skipWs r4 = rbrace :: r5) :
    parseMembers (g + 1) s = some ([(k, w)], r5) := by
  simp only [parseMembers, hsk, hstr, hsk2, hv, hr, Char.reduceEq, reduceIte]
  rw [if_neg (by decide : ¬(rbrace = ','))]

theorem parseMembers_comma (g : Nat) {s r1 r2 r3 r4 r5 k : List Char} {w : Json}
    (hsk : skipWs s = '"' :: r1) (hstr : parseStr r1 = some (k, r2))
    (hsk2 : skipWs r2 = ':' :: r3) (hv : parseVal g r3 = some (w, r4))
    (hr : skipWs r4 = ',' :: r5) :
    parseMembers (g + 1) s =
      (parseMembers g r5).map (fun p => ((k, w) :: p.1, p.2)) := by
  simp only [parseMembers, hsk, hstr, hsk2, hv, hr, Char.reduceEq, reduceIte]

theorem prettyItems_single (lvl : Nat) (x : Json) :
    prettyItems lvl [x] = indentChars lvl ++ prettyAux lvl x := by
  rw [prettyItems.eq_def]
  simp

theorem prettyItems_cons2 (lvl : Nat) (x y : Json) (ys : List Json) :
    prettyItems lvl (x :: y :: ys) =
      indentChars lvl ++ prettyAux lvl x ++
        (',' :: '\n' :: prettyItems lvl (y :: ys)) := by
  rw [prettyItems.eq_def]

theorem prettyMembers_single (lvl : Nat) (k : List Char) (w : Json) :
    prettyMembers lvl [(k, w)] =
      indentChars lvl ++ quoteStr k ++ ':' :: ' ' :: prettyAux lvl w := by
  rw [prettyMembers.eq_def]
  simp

theorem prettyMembers_cons2 (lvl : Nat) (k : List Char) (w : Json)
    (q : List Char × Json) (qs : List (List Char × Json)) :
    prettyMembers lvl ((k, w) :: q :: qs) =
      indentChars lvl ++ quoteStr k ++ ':' :: ' ' :: prettyAux lvl w ++
        (',' :: '\n' :: prettyMembers lvl (q :: qs)) := by
  rw [prettyMembers.eq_def]

mutual

/-- Round-trip, value level: the parser recovers exactly the canonical
value the printer emitted, consuming exactly its characters. -/
theorem parseVal_pretty (fuel lvl : Nat) (v : Json) (rest : List Char)
    (hc : Canonical v) (hf : jsizeV v ≤ fuel) (hrest : numSafe rest) :
    parseVal fuel (prettyAux lvl v ++ rest) = some (v, rest) := by
  obtain ⟨g, rfl⟩ : ∃ g, fuel = g + 1 :=
    ⟨fuel - 1, by have := jsizeV_pos v; omega⟩
  cases v with
  | null => rw [prettyAux]; exact parseVal_null g rest
  | bool b =>
    cases b with
    | true => rw [prettyAux]; exact parseVal_true g rest
    | false => rw [prettyAux]; exact parseVal_false g rest
  | int i => rw [prettyAux]; exact parseVal_int g i rest hrest
  | str s => rw [prettyAux]; exact parseVal_str g s rest
  | arr l =>
    cases l with
    | nil => rw [prettyAux]; exact parseVal_arr_nil g rest
    | cons x xs =>
      rw [jsizeV] at hf
      cases hc with
      | arr _ hall =>
        rw [prettyAux]
        have hin : ('[' :: '\n' ::
              (prettyItems (lvl + 1) (x :: xs) ++
                '\n' :: (indentChars lvl ++ [']']))) ++ rest =
            '[' :: ('\n' :: (prettyItems (lvl + 1) (x :: xs) ++
              ('\n' :: (indentChars lvl ++ (']' :: rest))))) := by
          simp [List.append_assoc]
        rw [hin]
        obtain ⟨c0, t, hsk2, hws0, hne0⟩ :=
          skipWs_items_head lvl x xs ('\n' :: (indentChars lvl ++ (']' :: rest)))
        have hsk1 : skipWs ('\n' :: (prettyItems (lvl + 1) (x :: xs) ++
            ('\n' :: (indentChars lvl ++ (']' :: rest))))) = c0 :: t := by
          rw [skipWs_cons_ws (by decide), hsk2]
        rw [parseVal_arr_cons g hsk1 hne0]
        have hcongr : parseItems g (c0 :: t) =
            parseItems g (prettyItems (lvl + 1) (x :: xs) ++
              ('\n' :: (indentChars lvl ++ (']' :: rest)))) :=
          parseItems_congr (by rw [← hsk2, skipWs_idem])
        rw [hcongr,
          parseItems_pretty g lvl (x :: xs) rest (by simp) hall (by omega) hrest]
        rfl
  | obj m =>
    cases m with
    | nil => rw [prettyAux]; exact parseVal_obj_nil g rest
    | cons p ms =>
      obtain ⟨k, w⟩ := p
      rw [jsizeV] at hf
      cases hc with
      | obj _ hnodup hvals =>
        rw [prettyAux]
        have hin : (lbrace :: '\n' ::
              (prettyMembers (lvl + 1) ((k, w) :: ms) ++
                '\n' :: (indentChars lvl ++ [rbrace]))) ++ rest =
            lbrace :: ('\n' :: (prettyMembers (lvl + 1) ((k, w) :: ms) ++
              ('\n' :: (indentChars lvl ++ (rbrace :: rest))))) := by
          simp [List.append_assoc]
        rw [hin]
        obtain ⟨t, hsk2⟩ :=
          skipWs_members_head lvl k w ms
            ('\n' :: (indentChars lvl ++ (rbrace :: rest)))
        have hsk1 : skipWs ('\n' :: (prettyMembers (lvl + 1) ((k, w) :: ms) ++
            ('\n' :: (indentChars lvl ++ (rbrace :: rest))))) = '"' :: t := by
          rw [skipWs_cons_ws (by decide), hsk2]
        rw [parseVal_obj_cons g hsk1 (by decide)]
        have hcongr : parseMembers g ('"' :: t) =
            parseMembers g (prettyMembers (lvl + 1) ((k, w) :: ms) ++
              ('\n' :: (indentChars lvl ++ (rbrace :: rest)))) :=
          parseMembers_congr (by rw [← hsk2, skipWs_idem])
        rw [hcongr,
          parseMembers_pretty g lvl ((k, w) :: ms) rest (by simp) hvals
            (by omega) hrest]
        simp only [Option.map_some']
        rw [pyDictFromPairs_self hnodup]
termination_by fuel

/-- Round-trip, array-items level. -/
theorem parseItems_pretty (fuel lvl : Nat) (l : List Json) (rest : List Char)
    (hne : l ≠ []) (hcl : ∀ y ∈ l, Canonical y) (hf : jsizeL l ≤ fuel)
    (hrest : numSafe rest) :
    parseItems fuel
      (prettyItems (lvl + 1) l ++
        ('
' :: (indentChars lvl ++ (']' :: rest)))) = some (l, rest) := by
  cases l with
  | nil => exact absurd rfl hne
  | cons x xs =>
    rw [jsizeL] at hf
    obtain ⟨g, rfl⟩ : ∃ g, fuel = g + 1 :=
      ⟨fuel - 1, by have := jsizeV_pos x; omega⟩
    cases xs with
    | nil =>
      rw [prettyItems_single, List.append_assoc]
      have hv := parseVal_pretty g (lvl + 1) x
        ('
' :: (indentChars lvl ++ (']' :: rest)))
        (hcl x (by simp)) (by simp [jsizeL] at hf; omega) (numSafe_newline _)
      have hcv : parseVal g (indentChars (lvl + 1) ++
          (prettyAux (lvl + 1) x ++
            ('
' :: (indentChars lvl ++ (']' :: rest))))) =
          some (x, '
' :: (indentChars lvl ++ (']' :: rest))) := by
        rw [parseVal_congr (skipWs_indent (lvl + 1) _), hv]
      have hskc : skipWs ('
' :: (indentChars lvl ++ (']' :: rest))) =
          ']' :: rest := by
        rw [skipWs_cons_ws (by decide), skipWs_indent,
          skipWs_cons_not_ws (by decide)]
      exact parseItems_last g hcv hskc
    | cons y ys =>
      rw [prettyItems_cons2]
      simp only [List.append_assoc, List.cons_append]
      have hv := parseVal_pretty g (lvl + 1) x
        (',' :: '
' :: (prettyItems (lvl + 1) (y :: ys) ++
          ('
' :: (indentChars lvl ++ (']' :: rest)))))
        (hcl x (by simp)) (by simp [jsizeL] at hf; omega) (numSafe_comma _)
      have hcv : parseVal g (indentChars (lvl + 1) ++
          (prettyAux (lvl + 1) x ++
            (',' :: '
' :: (prettyItems (lvl + 1) (y :: ys) ++
              ('
' :: (indentChars lvl ++ (']' :: rest))))))) =
          some (x, ',' :: '
' :: (prettyItems (lvl + 1) (y :: ys) ++
            ('
' :: (indentChars lvl ++ (']' :: rest))))) := by
        rw [parseVal_congr (skipWs_indent (lvl + 1) _), hv]
      have hskc : skipWs (',' :: '
' :: (prettyItems (lvl + 1) (y :: ys) ++
          ('
' :: (indentChars lvl ++ (']' :: rest))))) =
          ',' :: ('
' :: (prettyItems (lvl + 1) (y :: ys) ++
            ('
' :: (indentChars lvl ++ (']' :: rest))))) :=
        skipWs_cons_not_ws (by decide)
      rw [parseItems_comma g hcv hskc]
      have hcongr : parseItems g ('
' :: (prettyItems (lvl + 1) (y :: ys) ++
          ('
' :: (indentChars lvl ++ (']' :: rest))))) =
          parseItems g (prettyItems (lvl + 1) (y :: ys) ++
            ('
' :: (indentChars lvl ++ (']' :: rest)))) :=
        parseItems_congr (skipWs_cons_ws (by decide))
      rw [hcongr,
        parseItems_pretty g lvl (y :: ys) rest (by simp)
          (fun z hz => hcl z (by simp [hz]))
          (by have := jsizeV_pos x; simp [jsizeL] at hf ⊢; omega) hrest]
      rfl
termination_by fuel

/-- Round-trip, object-members level. -/
theorem parseMembers_pretty (fuel lvl : Nat)
    (m : List (List Char × Json)) (rest : List Char)
    (hne : m ≠ []) (hcm : ∀ p ∈ m, Canonical p.2) (hf : jsizeM m ≤ fuel)
    (hrest : numSafe rest) :
    parseMembers fuel
      (prettyMembers (lvl + 1) m ++
        ('
' :: (indentChars lvl ++ (rbrace :: rest)))) = some (m, rest) := by
  cases m with
  | nil => exact absurd rfl hne
  | cons p ms =>
    obtain ⟨k, w⟩ := p
    rw [jsizeM] at hf
    obtain ⟨g, rfl⟩ : ∃ g, fuel = g + 1 :=
      ⟨fuel - 1, by have := jsizeV_pos w; simp at hf; omega⟩
    cases ms with
    | nil =>
      rw [prettyMembers_single]
      simp only [quoteStr, List.append_assoc, List.cons_append,
        List.singleton_append, List.nil_append]
      have hsk : skipWs (indentChars (lvl + 1) ++
          ('"' :: ((k.map escapeChar).flatten ++
            ('"' :: ':' :: ' ' :: (prettyAux (lvl + 1) w ++
              ('
' :: (indentChars lvl ++ (rbrace :: rest)))))))) =
          '"' :: ((k.map escapeChar).flatten ++
            ('"' :: ':' :: ' ' :: (prettyAux (lvl + 1) w ++
              ('
' :: (indentChars lvl ++ (rbrace :: rest)))))) := by
        rw [skipWs_indent, skipWs_cons_not_ws (by decide)]
      have hstr := parseStr_quote k
        (':' :: ' ' :: (prettyAux (lvl + 1) w ++
          ('
' :: (indentChars lvl ++ (rbrace :: rest)))))
      have hsk2 : skipWs (':' :: ' ' :: (prettyAux (lvl + 1) w ++
          ('
' :: (indentChars lvl ++ (rbrace :: rest))))) =
          ':' :: (' ' :: (prettyAux (lvl + 1) w ++
            ('
' :: (indentChars lvl ++ (rbrace :: rest))))) :=
        skipWs_cons_not_ws (by decide)
      have hw := parseVal_pretty g (lvl + 1) w
        ('
' :: (indentChars lvl ++ (rbrace :: rest)))
        (hcm (k, w) (by simp)) (by simp [jsizeM] at hf; omega)
        (numSafe_newline _)
      have hv : parseVal g (' ' :: (prettyAux (lvl + 1) w ++
          ('
' :: (indentChars lvl ++ (rbrace :: rest))))) =
          some (w, '
' :: (indentChars lvl ++ (rbrace :: rest))) := by
        rw [parseVal_congr (skipWs_cons_ws (by decide)), hw]
      have hr : skipWs ('
' :: (indentChars lvl ++ (rbrace :: rest))) =
          rbrace :: rest := by
        rw [skipWs_cons_ws (by decide), skipWs_indent,
          skipWs_cons_not_ws (by decide)]
      exact parseMembers_last g hsk hstr hsk2 hv hr
    | cons q qs =>
      rw [prettyMembers_cons2]
      simp only [quoteStr, List.append_assoc, List.cons_append,
        List.singleton_append, List.nil_append]
      have hsk : skipWs (indentChars (lvl + 1) ++
          ('"' :: ((k.map escapeChar).flatten ++
            ('"' :: ':' :: ' ' :: (prettyAux (lvl + 1) w ++
              (',' :: '
' :: (prettyMembers (lvl + 1) (q :: qs) ++
                ('
' :: (indentChars lvl ++ (rbrace :: rest)))))))))) =
          '"' :: ((k.map escapeChar).flatten ++
            ('"' :: ':' :: ' ' :: (prettyAux (lvl + 1) w ++
              (',' :: '
' :: (prettyMembers (lvl + 1) (q :: qs) ++
                ('
' :: (indentChars lvl ++ (rbrace :: rest)))))))) := by
        rw [skipWs_indent, skipWs_cons_not_ws (by decide)]
      have hstr := parseStr_quote k
        (':' :: ' ' :: (prettyAux (lvl + 1) w ++
          (',' :: '
' :: (prettyMembers (lvl + 1) (q :: qs) ++
            ('
' :: (indentChars lvl ++ (rbrace :: rest)))))))
      have hsk2 : skipWs (':' :: ' ' :: (prettyAux (lvl + 1) w ++
          (',' :: '
' :: (prettyMembers (lvl + 1) (q :: qs) ++
            ('
' :: (indentChars lvl ++ (rbrace :: rest))))))) =
          ':' :: (' ' :: (prettyAux (lvl + 1) w ++
            (',' :: '
' :: (prettyMembers (lvl + 1) (q :: qs) ++
              ('
' :: (indentChars lvl ++ (rbrace :: rest))))))) :=
        skipWs_cons_not_ws (by decide)
      have hw := parseVal_pretty g (lvl + 1) w
        (',' :: '
' :: (prettyMembers (lvl + 1) (q :: qs) ++
          ('
' :: (indentChars lvl ++ (rbrace :: rest)))))
        (hcm (k, w) (by simp)) (by simp [jsizeM] at hf; omega)
        (numSafe_comma _)
      have hv : parseVal g (' ' :: (prettyAux (lvl + 1) w ++
          (',' :: '
' :: (prettyMembers (lvl + 1) (q :: qs) ++
            ('
' :: (indentChars lvl ++ (rbrace :: rest))))))) =
          some (w, ',' :: '
' :: (prettyMembers (lvl + 1) (q :: qs) ++
            ('
' :: (indentChars lvl ++ (rbrace :: rest))))) := by
        rw [parseVal_congr (skipWs_cons_ws (by decide)), hw]
      have hr : skipWs (',' :: '
' :: (prettyMembers (lvl + 1) (q :: qs) ++
          ('
' :: (indentChars lvl ++ (rbrace :: rest))))) =
          ',' :: ('
' :: (prettyMembers (lvl + 1) (q :: qs) ++
            ('
' :: (indentChars lvl ++ (rbrace :: rest))))) :=
        skipWs_cons_not_ws (by decide)
      rw [parseMembers_comma g hsk hstr hsk2 hv hr]
      have hcongr : parseMembers g
          ('
' :: (prettyMembers (lvl + 1) (q :: qs) ++
            ('
' :: (indentChars lvl ++ (rbrace :: rest))))) =
          parseMembers g (prettyMembers (lvl + 1) (q :: qs) ++
            ('
' :: (indentChars lvl ++ (rbrace :: rest)))) :=
        parseMembers_congr (skipWs_cons_ws (by decide))
      rw [hcongr,
        parseMembers_pretty g lvl (q :: qs) rest (by simp)
          (fun p hp => hcm p (by simp [hp]))
          (by have := jsizeV_pos w; simp [jsizeM] at hf ⊢; omega) hrest]
      rfl
termination_by fuel

end

/-- Everything the parser produces is canonical: object keys are distinct
at every level, because every parsed member list goes through
`pyDictFromPairs`. -/
theorem parse_canonical (fuel : Nat) :
    (∀ s v r, parseVal fuel s = some (v, r) → Canonical v) ∧
    (∀ s l r, parseItems fuel s = some (l, r) → ∀ y ∈ l, Canonical y) ∧
    (∀ s m r, parseMembers fuel s = some (m, r) → ∀ p ∈ m, Canonical p.2) := by
  induction fuel with
  | zero =>
    refine ⟨?_, ?_, ?_⟩ <;> intro s a r h <;>
      simp [parseVal, parseItems, parseMembers] at h
  | succ g ih =>
    obtain ⟨ihv, ihl, ihm⟩ := ih
    refine ⟨?_, ?_, ?_⟩
    · intro s v r h
      simp only [parseVal] at h
      repeat' split at h
      all_goals try exact Option.noConfusion h
      all_goals first
        | (cases h
           first
             | exact Canonical.obj [] (by simp) (by simp)
             | exact Canonical.arr [] (by simp)
             | exact Canonical.int _
             | exact Canonical.bool true
             | exact Canonical.bool false
             | exact Canonical.null)
        | (obtain ⟨p, hp, hfp⟩ := Option.map_eq_some'.mp h
           cases hfp
           first
             | exact Canonical.str _
             | exact Canonical.arr _ (ihl _ _ _ hp)
             | (refine Canonical.obj _ (pyDictFromPairs_keys_nodup p.1) ?_
                intro q hq
                exact ihm _ _ _ hp q (pyDictFromPairs_mem q hq)))
    · intro s l r h
      simp only [parseItems] at h
      repeat' split at h
      all_goals try exact Option.noConfusion h
      all_goals first
        | (cases h
           intro y hy
           rcases List.mem_cons.mp hy with hy | hy
           · rw [hy]
             exact ihv _ _ _ (by assumption)
           · simp at hy)
        | (obtain ⟨p, hp, hfp⟩ := Option.map_eq_some'.mp h
           cases hfp
           intro y hy
           rcases List.mem_cons.mp hy with hy | hy
           · rw [hy]
             exact ihv _ _ _ (by assumption)
           · exact ihl _ _ _ hp y hy)
    · intro s m r h
      simp only [parseMembers] at h
      repeat' split at h
      all_goals try exact Option.noConfusion h
      all_goals first
        | (cases h
           intro q hq
           rcases List.mem_cons.mp hq with hq | hq
           · rw [hq]
             exact ihv _ _ _ (by assumption)
           · simp at hq)
        | (obtain ⟨p, hp, hfp⟩ := Option.map_eq_some'.mp h
           cases hfp
           intro q hq
           rcases List.mem_cons.mp hq with hq | hq
           · rw [hq]
             exact ihv _ _ _ (by assumption)
           · exact ihm _ _ _ hp q hq)

/-- C4's engine: a successful `json.loads` of the logged pretty-printed
form recovers the parsed value exactly. -/
theorem jsonParse_pretty_roundtrip {s : List Char} {v : Json}
    (h : jsonParse s = some v) : jsonParse (pretty v) = some v := by
  rw [jsonParse] at h
  split at h
  · rename_i v1 rest1 heq
    split at h
    · have hv1 : v1 = v := by injection h
      rw [← hv1]
      have hc : Canonical v1 := (parse_canonical _).1 _ _ _ heq
      have hsize : jsizeV v1 ≤ (pretty v1).length := jsizeV_le_pretty 0 v1
      have hrt := parseVal_pretty ((pretty v1).length + 1) 0 v1 [] hc
        (by omega) trivial
      rw [List.append_nil] at hrt
      have hrt2 : parseVal ((pretty v1).length + 1) (pretty v1) =
          some (v1, []) := hrt
      rw [jsonParse, hrt2]
      rfl
    · exact Option.noConfusion h
  · exact Option.noConfusion h

/-! ## Spec-side definitions (for comparison against the code) -/

/-- Modelled from the spec: the response message template
`"<path> 的 <METHOD> 请求已接收"` with the path and the method substituted
in (spec section 6 and claim C2). -/
def specMessageTemplate (path method : String) : String :=
  path ++ " 的 " ++ method ++ " 请求已接收"

/-- Modelled from the spec: "duplicate header names collapse to
last-seen" — the value of the last occurrence of a name in the raw
header list. -/
def lastSeenHeaderValue (l : List (String × String)) (k : String) :
    Option String :=
  (l.reverse.find? (fun p => p.1 = k)).map (fun p => p.2)

theorem log_request_info_lines (req : Request) (sIso sDisp : String)
    (sT : ℚ) (resp : HttpResponse) (eIso : String) (eT : ℚ) :
    (log_request_info req sIso sDisp sT resp eIso eT).lines =
      preLogLines (mkRequestInfo req sIso) sDisp ++
        postLogLines (log_request_info req sIso sDisp sT resp eIso eT).respInfo :=
  rfl

theorem preLogLines_concat (info : RequestRecord) (d : String) :
    ∃ front, preLogLines info d = front ++ [LogLine.reqDetail info] := by
  refine ⟨[LogLine.text (String.mk (List.replicate 80 '=')),
    LogLine.text ("📨 收到请求 - " ++ d),
    LogLine.text ("📍 方法: " ++ info.method),
    LogLine.text ("🔗 URL: " ++ info.url),
    LogLine.text ("🌐 客户端: " ++ info.client),
    LogLine.text ("📏 请求体大小: " ++ toString info.body_size ++ " bytes"),
    LogLine.text (String.mk (List.replicate 80 '-')),
    LogLine.text "📋 请求头:"] ++
    info.headers.map (fun p => LogLine.text ("   " ++ p.1 ++ ": " ++ p.2)) ++
    (if info.query_params = [] then []
     else
       LogLine.text "🔍 查询参数:" ::
         info.query_params.map
           (fun p => LogLine.text ("   " ++ p.1 ++ ": " ++ p.2))) ++
    bodySectionLines info.body_content ++
    [LogLine.text (String.mk (List.replicate 80 '='))], ?_⟩
  simp [preLogLines]

/-- A minimal concrete GET request used as a test vector. -/
def sampleGetReq : Request :=
  { method := "GET", url := "http://h/", rawHeaders := []
    queryParams := [], client := none, body := [] }

/-- A concrete response used as a test vector. -/
def sampleResp : HttpResponse :=
  { status_code := 200
    body := { status := "success", message := "m"
              received_at := "r", path := "", method := "GET" } }

/-! ## The claims -/

/-- C1: for every supported HTTP method (GET, POST, PUT, DELETE, PATCH,
OPTIONS, HEAD) and every path string — empty, unicode or nested — the
catch-all endpoint returns status 200 and a JSON body whose `path` field
is the matched path and whose `method` field is the request method,
exactly. -/
theorem C1_catch_all_200_and_echo (req : Request) (path now : String)
    (h : req.method ∈ supportedMethods) :
    (catch_all_endpoint req path now).status_code = 200 ∧
    (catch_all_endpoint req path now).body.path = path ∧
    (catch_all_endpoint req path now).body.method = req.method :=
  ⟨rfl, rfl, rfl⟩

theorem C1_witness :
    (catch_all_endpoint
      { method := "POST", url := "http://localhost:8000/webhook/订单/42"
        rawHeaders := [], queryParams := [], client := none, body := [] }
      "webhook/订单/42" "2024-05-01T12:00:00").status_code = 200 ∧
    (catch_all_endpoint
      { method := "POST", url := "http://localhost:8000/webhook/订单/42"
        rawHeaders := [], queryParams := [], client := none, body := [] }
      "webhook/订单/42" "2024-05-01T12:00:00").body.path = "webhook/订单/42" ∧
    (catch_all_endpoint
      { method := "POST", url := "http://localhost:8000/webhook/订单/42"
        rawHeaders := [], queryParams := [], client := none, body := [] }
      "webhook/订单/42" "2024-05-01T12:00:00").body.method = "POST" :=
  C1_catch_all_200_and_echo _ "webhook/订单/42" "2024-05-01T12:00:00"
    (by decide)

/-- C2 counterexample: at path "ping" with method GET the code's message
is "路径 /ping 的 GET 请求已接收", not the spec template
"<path> 的 <METHOD> 请求已接收" substituted ("ping 的 GET 请求已接收"):
the code prefixes "路径 /". -/
theorem C2_message_counterexample :
    (catch_all_endpoint
      { method := "GET", url := "http://localhost:8000/ping"
        rawHeaders := [], queryParams := [], client := none, body := [] }
      "ping" "t").body.message ≠ specMessageTemplate "ping" "GET" := by
  decide

/-- C2 (amended): every response carries `status = "success"`, a message
exactly matching the template "路径 /<path> 的 <METHOD> 请求已接收" with
the path and method substituted in, `received_at` set to the
construction-time timestamp, and the echoed path and method. -/
theorem C2_response_fields (req : Request) (path now : String) :
    (catch_all_endpoint req path now).body.status = "success" ∧
    (catch_all_endpoint req path now).body.message =
      "路径 /" ++ path ++ " 的 " ++ req.method ++ " 请求已接收" ∧
    (catch_all_endpoint req path now).body.received_at = now ∧
    (catch_all_endpoint req path now).body.path = path ∧
    (catch_all_endpoint req path now).body.method = req.method :=
  ⟨rfl, rfl, rfl, rfl, rfl⟩

/-- C3: the logged `body_size` equals the byte length of the raw body,
and depends only on the body — any other request with the same body
(any headers, hence any declared Content-Type) gets the same
`body_size`. -/
theorem C3_body_size_exact (req : Request) (t : String) :
    (mkRequestInfo req t).body_size = req.body.length ∧
    (∀ req2 : Request, req2.body = req.body →
      (mkRequestInfo req2 t).body_size = (mkRequestInfo req t).body_size) :=
  ⟨rfl, fun req2 h => by simp [mkRequestInfo, h]⟩

/-- C4: for every body that is valid JSON, the pretty-printed form the
logger emits (2-space indent, non-ASCII preserved) parses back to a value
structurally equal to the parse of the original body:
parse (pretty (parse body)) = parse body. -/
theorem C4_pretty_roundtrip (body : List Char) (v : Json)
    (hv : jsonParse body = some v) (hne : body ≠ []) :
    bodySectionLines (some body) =
      [LogLine.text "📄 请求体内容:", LogLine.text (String.mk (pretty v))] ∧
    jsonParse (pretty v) = jsonParse body := by
  constructor
  · simp [bodySectionLines, hne, hv]
  · rw [hv]
    exact jsonParse_pretty_roundtrip hv

theorem C4_witness :
    bodySectionLines (some ("[1, 2]".data)) =
      [LogLine.text "📄 请求体内容:",
        LogLine.text (String.mk (pretty (Json.arr [Json.int 1, Json.int 2])))] ∧
    jsonParse (pretty (Json.arr [Json.int 1, Json.int 2])) =
      jsonParse ("[1, 2]".data) :=
  C4_pretty_roundtrip ("[1, 2]".data)
    (Json.arr [Json.int 1, Json.int 2]) (by rfl) (by decide)

/-- C5: the middleware never raises or rejects: decoding the body with
errors='ignore' always succeeds (invalid bytes dropped), a missing peer
address is replaced by the literal "unknown", and a body that fails JSON
parsing is logged through the raw-text fallback branch. -/
theorem C5_error_recovery (req : Request) (t : String) :
    (utf8_decode true req.body).isSome ∧
    (req.client = none → (mkRequestInfo req t).client = "unknown") ∧
    (∀ s : List Char, jsonParse s = none → s ≠ [] →
      bodySectionLines (some s) =
        [LogLine.text "📄 请求体内容:", LogLine.text (String.mk s)]) := by
  refine ⟨utf8_decode_ignore_isSome _, fun h => by simp [mkRequestInfo, h], ?_⟩
  intro s hp hs
  simp [bodySectionLines, hs, hp]

/-- C6: a request with an empty (zero-byte) body is logged with
`body_content` absent (`None`) and `body_size` 0. -/
theorem C6_empty_body (req : Request) (t : String) (h : req.body = []) :
    (mkRequestInfo req t).body_content = none ∧
    (mkRequestInfo req t).body_size = 0 := by
  simp [mkRequestInfo, h]

theorem C6_witness :
    (mkRequestInfo
      { method := "GET", url := "http://localhost:8000/"
        rawHeaders := [], queryParams := [], client := none, body := [] }
      "t").body_content = none ∧
    (mkRequestInfo
      { method := "GET", url := "http://localhost:8000/"
        rawHeaders := [], queryParams := [], client := none, body := [] }
      "t").body_size = 0 :=
  C6_empty_body _ "t" rfl

/-- C7: response construction reads only the method and the path: two
requests with the same method (bodies, headers, query strings and peer
addresses arbitrary) on the same path get responses equal in every field
except `received_at`. -/
theorem C7_only_method_and_path (r1 r2 : Request) (path t1 t2 : String)
    (h : r1.method = r2.method) :
    (catch_all_endpoint r1 path t1).status_code =
      (catch_all_endpoint r2 path t2).status_code ∧
    (catch_all_endpoint r1 path t1).body.status =
      (catch_all_endpoint r2 path t2).body.status ∧
    (catch_all_endpoint r1 path t1).body.message =
      (catch_all_endpoint r2 path t2).body.message ∧
    (catch_all_endpoint r1 path t1).body.path =
      (catch_all_endpoint r2 path t2).body.path ∧
    (catch_all_endpoint r1 path t1).body.method =
      (catch_all_endpoint r2 path t2).body.method := by
  simp [catch_all_endpoint, h]

theorem C7_witness :
    (catch_all_endpoint
      { method := "POST", url := "http://h/a?x=1"
        rawHeaders := [("content-type", "application/json")]
        queryParams := [("x", "1")], client := some ("1.2.3.4", 1)
        body := [123] } "a" "t1").status_code =
      (catch_all_endpoint
        { method := "POST", url := "http://h/a"
          rawHeaders := [], queryParams := [], client := none
          body := [] } "a" "t2").status_code ∧
    (catch_all_endpoint
      { method := "POST", url := "http://h/a?x=1"
        rawHeaders := [("content-type", "application/json")]
        queryParams := [("x", "1")], client := some ("1.2.3.4", 1)
        body := [123] } "a" "t1").body.status =
      (catch_all_endpoint
        { method := "POST", url := "http://h/a"
          rawHeaders := [], queryParams := [], client := none
          body := [] } "a" "t2").body.status ∧
    (catch_all_endpoint
      { method := "POST", url := "http://h/a?x=1"
        rawHeaders := [("content-type", "application/json")]
        queryParams := [("x", "1")], client := some ("1.2.3.4", 1)
        body := [123] } "a" "t1").body.message =
      (catch_all_endpoint
        { method := "POST", url := "http://h/a"
          rawHeaders := [], queryParams := [], client := none
          body := [] } "a" "t2").body.message ∧
    (catch_all_endpoint
      { method := "POST", url := "http://h/a?x=1"
        rawHeaders := [("content-type", "application/json")]
        queryParams := [("x", "1")], client := some ("1.2.3.4", 1)
        body := [123] } "a" "t1").body.path =
      (catch_all_endpoint
        { method := "POST", url := "http://h/a"
          rawHeaders := [], queryParams := [], client := none
          body := [] } "a" "t2").body.path ∧
    (catch_all_endpoint
      { method := "POST", url := "http://h/a?x=1"
        rawHeaders := [("content-type", "application/json")]
        queryParams := [("x", "1")], client := some ("1.2.3.4", 1)
        body := [123] } "a" "t1").body.method =
      (catch_all_endpoint
        { method := "POST", url := "http://h/a"
          rawHeaders := [], queryParams := [], client := none
          body := [] } "a" "t2").body.method :=
  C7_only_method_and_path _ _ "a" "t1" "t2" rfl

/-- C8 counterexample: with raw headers
[("x-dup", "1"), ("x-dup", "2")] the logged header dict is
[("x-dup", "1")] — the first occurrence's value — while the last
occurrence holds "2"; so duplicates do not collapse to last-seen as the
claim states. -/
theorem C8_counterexample :
    (mkRequestInfo
      { method := "GET", url := "u"
        rawHeaders := [("x-dup", "1"), ("x-dup", "2")]
        queryParams := [], client := none, body := [] } "t").headers =
      [("x-dup", "1")] ∧
    lastSeenHeaderValue [("x-dup", "1"), ("x-dup", "2")] "x-dup" =
      some "2" ∧
    ("1" : String) ≠ "2" := by
  refine ⟨rfl, rfl, by decide⟩

/-- C8 (amended): duplicate header names collapse to the FIRST-seen
value (Starlette `Headers.__getitem__` returns the first match and
`dict(request.headers)` goes through it), and keys appear in
first-occurrence order, so non-duplicate names keep insertion order. -/
theorem C8_headers_first_seen (req : Request) (t : String) :
    (mkRequestInfo req t).headers.map Prod.fst =
      firstDedup (req.rawHeaders.map Prod.fst) ∧
    ∀ q ∈ (mkRequestInfo req t).headers,
      firstLookup req.rawHeaders q.1 = some q.2 :=
  ⟨dictOfHeaders_keys req.rawHeaders, dictOfHeaders_values req.rawHeaders⟩

/-- C9: within one request lifecycle the middleware emits the
RequestRecord detail line strictly before the ResponseRecord detail
line, and `process_time = end - start` is nonnegative whenever the end
instant is not before the start instant. -/
theorem C9_ordering_and_nonneg (req : Request) (sIso sDisp : String)
    (sT : ℚ) (resp : HttpResponse) (eIso : String) (eT : ℚ)
    (h : sT ≤ eT) :
    (∃ (i j : Nat), i < j ∧
      (log_request_info req sIso sDisp sT resp eIso eT).lines[i]? =
        some (LogLine.reqDetail (mkRequestInfo req sIso)) ∧
      (log_request_info req sIso sDisp sT resp eIso eT).lines[j]? =
        some (LogLine.respDetail
          (log_request_info req sIso sDisp sT resp eIso eT).respInfo)) ∧
    0 ≤ (log_request_info req sIso sDisp sT resp eIso eT).respInfo.process_time := by
  constructor
  · obtain ⟨front, hfront⟩ := preLogLines_concat (mkRequestInfo req sIso) sDisp
    refine ⟨front.length, front.length + 2, by omega, ?_, ?_⟩
    · rw [log_request_info_lines, hfront, List.append_assoc,
        List.getElem?_append_right (le_refl front.length)]
      simp
    · rw [log_request_info_lines, hfront, List.append_assoc,
        List.getElem?_append_right (by omega : front.length ≤ front.length + 2)]
      have : front.length + 2 - front.length = 2 := by omega
      rw [this]
      rfl
  · show 0 ≤ processTime sT eT
    rw [processTime]
    linarith

theorem C9_witness :
    (∃ (i j : Nat), i < j ∧
      (log_request_info sampleGetReq "s" "d" 1 sampleResp "e" 2).lines[i]? =
        some (LogLine.reqDetail (mkRequestInfo sampleGetReq "s")) ∧
      (log_request_info sampleGetReq "s" "d" 1 sampleResp "e" 2).lines[j]? =
        some (LogLine.respDetail
          (log_request_info sampleGetReq "s" "d" 1 sampleResp "e" 2).respInfo)) ∧
    0 ≤ (log_request_info sampleGetReq "s" "d" 1 sampleResp "e" 2).respInfo.process_time :=
  C9_ordering_and_nonneg sampleGetReq "s" "d" 1 sampleResp "e" 2 (by norm_num)

/-- C10: a non-empty body made entirely of invalid UTF-8 bytes (each in
0x80..0xBF, so no byte can start a valid sequence) is logged with
`body_content = some ""` — the empty string, not absent — the
body-content section is skipped exactly as for an empty body, yet
`body_size` is positive. -/
theorem C10_invalid_utf8_body (req : Request) (t : String)
    (h1 : req.body ≠ []) (h2 : ∀ b ∈ req.body, 0x80 ≤ b ∧ b ≤ 0xBF) :
    (mkRequestInfo req t).body_content = some [] ∧
    bodySectionLines (mkRequestInfo req t).body_content = [] ∧
    bodySectionLines (mkRequestInfo req t).body_content =
      bodySectionLines none ∧
    0 < (mkRequestInfo req t).body_size := by
  have hd : decodeIgnore req.body = [] := by
    rw [decodeIgnore, utf8_decode_all_cont h2]
    rfl
  refine ⟨?_, ?_, ?_, ?_⟩
  · simp [mkRequestInfo, h1, hd]
  · simp [mkRequestInfo, h1, hd, bodySectionLines]
  · simp [mkRequestInfo, h1, hd, bodySectionLines]
  · simpa [mkRequestInfo] using List.length_pos.mpr h1

theorem C10_witness :
    (mkRequestInfo
      { method := "POST", url := "http://h/", rawHeaders := []
        queryParams := [], client := none, body := [0x80, 0xBF, 0x99] }
      "t").body_content = some [] ∧
    bodySectionLines (mkRequestInfo
      { method := "POST", url := "http://h/", rawHeaders := []
        queryParams := [], client := none, body := [0x80, 0xBF, 0x99] }
      "t").body_content = [] ∧
    bodySectionLines (mkRequestInfo
      { method := "POST", url := "http://h/", rawHeaders := []
        queryParams := [], client := none, body := [0x80, 0xBF, 0x99] }
      "t").body_content = bodySectionLines none ∧
    0 < (mkRequestInfo
      { method := "POST", url := "http://h/", rawHeaders := []
        queryParams := [], client := none, body := [0x80, 0xBF, 0x99] }
      "t").body_size :=
  C10_invalid_utf8_body _ "t" (by decide) (by decide)

end CallbackPrinter
